import Mathlib

/-!
Verification of the dental clinic record keeping application
(`dental/models.py`, `dental/views.py`).

The development shallowly embeds the code paths that the specification
speaks about:

* the sequential identifier generators `Patient.save` and `Invoice.save`
  (`models.py`),
* the lazy dental chart initialization in `patient_detail` (`views.py`),
* the AJAX endpoint `tooth_update` (`views.py`),
* the periodontal exam write path `periodontal_exam_create` and read
  path `periodontal_exam_detail` (`views.py`).

Strings, Python string methods (`strip`, `startswith`, slicing,
`int(...)`, decimal formatting) and the relevant Django query set
operations (`filter`, `order_by(...).last()`, `order_by(...).first()`,
the default `Meta.ordering`) are modelled explicitly.  Database rows
are Lean structures, tables are lists of rows, and each
`objects.create(...)` call appends a row; the views use no transaction
wrapper, so under the default Django autocommit behaviour every such
write persists immediately, which the embedding mirrors by threading
the table state through each step.
-/

set_option maxRecDepth 4000

namespace Dental

/-! ### Models of Python string primitives -/

/-- Python whitespace characters relevant to `str.strip()` (ASCII part). -/
def isPySpace (c : Char) : Bool :=
  c = ' ' || c = '\t' || c = '\n' || c = '\x0d' || c = '\x0b' || c = '\x0c'

/-- Model of Python `str.strip()`: remove leading and trailing whitespace. -/
def pyStrip (s : String) : String :=
  ⟨((s.data.dropWhile isPySpace).reverse.dropWhile isPySpace).reverse⟩

/-- The decimal digit character for a digit value below 10. -/
def digitCh (d : Nat) : Char := Char.ofNat (48 + d)

/-- Fuel driven decimal digit expansion (most significant digit first);
the fuel is always one more than the number, which bounds the digit
count from above. -/
def decReprAux : Nat → Nat → List Char
  | 0, _ => []
  | fuel + 1, m =>
    if m < 10 then [digitCh m]
    else decReprAux fuel (m / 10) ++ [digitCh (m % 10)]

/-- Model of Python `str(n)` for a natural number: its decimal digits. -/
def decRepr (n : Nat) : List Char := decReprAux (n + 1) n

/-- Model of Python `str(n)` producing a `String`. -/
def pyStr (n : Nat) : String := ⟨decRepr n⟩

/-- Model of the Python format specifier `f"\x7bn:04d\x7d"` restricted to
naturals: the decimal representation left padded with `0` to width 4.
Values needing five or more digits are rendered in full, the width is
only a minimum. -/
def pyFormat04N (n : Nat) : List Char :=
  List.replicate (4 - (decRepr n).length) '0' ++ decRepr n

/-- Model of the Python format specifier `f"\x7bn:04d\x7d"` on integers;
for a negative value the sign occupies one of the four positions. -/
def pyFormat04 (n : Int) : String :=
  if n < 0 then
    ⟨'-' :: (List.replicate (3 - (decRepr n.natAbs).length) '0' ++ decRepr n.natAbs)⟩
  else ⟨pyFormat04N n.toNat⟩

/-- Digit value of a decimal digit character. -/
def charDigit (c : Char) : Nat := c.toNat - 48

/-- Digit run acceptor for `int(...)`: decimal digits with single
underscores allowed strictly between digits, accumulating the value. -/
def parseDigitsAux (acc : Nat) : List Char → Option Nat
  | [] => some acc
  | c :: rest =>
    if c.isDigit then parseDigitsAux (acc * 10 + charDigit c) rest
    else if c = '_' then
      match rest with
      | c2 :: _ => if c2.isDigit then parseDigitsAux acc rest else none
      | [] => none
    else none

/-- Digit run acceptor for `int(...)`: requires a leading digit. -/
def parseDigits : List Char → Option Nat
  | [] => none
  | c :: rest => if c.isDigit then parseDigitsAux (charDigit c) rest else none

/-- Model of Python `int(s)` after stripping, on the character list:
an optional sign followed by a nonempty digit run. -/
def pyIntL : List Char → Option Int
  | [] => none
  | c :: rest =>
    if c = '+' then (parseDigits rest).map Int.ofNat
    else if c = '-' then (parseDigits rest).map (fun n => -(Int.ofNat n))
    else (parseDigits (c :: rest)).map Int.ofNat

/-- Model of Python `int(s)` on strings: strip whitespace, an optional
sign, then a nonempty digit run; `none` models the `ValueError` raised
on any other input. -/
def pyInt (s : String) : Option Int := pyIntL (pyStrip s).data

/-- Model of Python `s.startswith(pre)` on character lists. -/
def startsWithL : List Char → List Char → Bool
  | [], _ => true
  | _ :: _, [] => false
  | a :: as, b :: bs => a = b && startsWithL as bs

/-- Model of Python `s.startswith(pre)` (argument order: string, then
the candidate leading segment). -/
def pyStartswith (s pre : String) : Bool := startsWithL pre.data s.data

/-- Byte order lexicographic comparison of character lists; this is the
order SQLite applies to text columns in `order_by`, restricted to the
ASCII identifiers the application generates. -/
def lexLtL : List Char → List Char → Bool
  | [], [] => false
  | [], _ :: _ => true
  | _ :: _, [] => false
  | a :: as, b :: bs => if a = b then lexLtL as bs else decide (a < b)

/-- Lexicographic order on strings (the `order_by` order on a
`CharField`). -/
def strLtB (s t : String) : Bool := lexLtL s.data t.data

/-- Model of Python `s[-4:]`: the last four characters. -/
def pyLast4 (s : String) : String := ⟨s.data.drop (s.data.length - 4)⟩

/-! ### Sequential identifier generation (`Patient.save`, `Invoice.save`) -/

/-- One step of taking the lexicographically greatest string. -/
def lastStep (acc : Option String) (s : String) : Option String :=
  match acc with
  | none => some s
  | some a => if strLtB a s then some s else some a

/-- Model of `queryset.order_by(field).last()` on a list of strings:
the lexicographically greatest element (the identifier columns carry a
uniqueness constraint, so ties do not arise). -/
def djangoLast (l : List String) : Option String := l.foldl lastStep none

/-- Shared body of `Patient.save` and `Invoice.save`: filter the
existing identifiers by the kind plus year leading segment, take the
`order_by(id).last()` element, parse its last four characters with
`int`, add one (start at 1 when no identifier matches) and format the
result with `f"\x7b:04d\x7d"` appended to the same leading segment.
`none` models the uncaught `ValueError` when the parse fails. -/
def generateSeqId (kpref : String) (existing : List String) : Option String :=
  match djangoLast (existing.filter (fun s => pyStartswith s kpref)) with
  | none => some (kpref ++ pyFormat04 1)
  | some lastId =>
    match pyInt (pyLast4 lastId) with
    | none => none
    | some v => some (kpref ++ pyFormat04 (v + 1))

/-- Model of `Patient.save`: when `patient_id` is unset (the empty
string, which is falsy in Python) generate `P<year><seq>` from the
existing identifiers, otherwise keep the stored identifier. -/
def patient_save (patient_id : String) (year : Nat) (existing : List String) :
    Option String :=
  if patient_id = "" then generateSeqId ("P" ++ pyStr year) existing
  else some patient_id

/-- Model of `Invoice.save`: as `patient_save` with the `INV<year>`
leading segment. -/
def invoice_save (invoice_number : String) (year : Nat) (existing : List String) :
    Option String :=
  if invoice_number = "" then generateSeqId ("INV" ++ pyStr year) existing
  else some invoice_number

/-! ### Data model (`dental/models.py`) -/

/-- `ToothMeasurement.SURFACE_CHOICES`: the two stored surface values. -/
inductive Surface
  | buccal
  | lingual
deriving DecidableEq, Repr

/-- `ToothMeasurement.POSITION_CHOICES`: the three stored position values. -/
inductive Position
  | mesial
  | middle
  | distal
deriving DecidableEq, Repr

/-- The stored string for a surface (the choice key in `SURFACE_CHOICES`). -/
def surfaceKey : Surface → String
  | .buccal => "buccal"
  | .lingual => "lingual"

/-- The stored string for a position (the choice key in `POSITION_CHOICES`). -/
def positionKey : Position → String
  | .mesial => "mesial"
  | .middle => "middle"
  | .distal => "distal"

/-- A `ToothMeasurement` row (fields in model declaration order);
`exam` is the foreign key to the owning `PeriodontalExam`. -/
structure ToothMeasurement where
  exam : Nat
  tooth_number : Nat
  position : Position
  surface : Surface
  pocket_depth : Int
  bleeding : Bool
  calculus : Bool
  mobility : Option Nat
deriving DecidableEq, Repr

/-- A `PeriodontalExam` row; `id` is the primary key, `patient` and
`dentist` are foreign keys (`dentist` nullable by `SET_NULL`). -/
structure PeriodontalExam where
  id : Nat
  patient : Nat
  exam_date : Int
  dentist : Option Nat
  notes : String
deriving DecidableEq, Repr

/-- A `Tooth` row of the dental chart. -/
structure Tooth where
  patient : Nat
  tooth_number : Nat
  status : String
  notes : String
deriving DecidableEq, Repr

/-- The periodontal tables of the database: exam rows and measurement
rows, in insertion order. -/
structure Db where
  exams : List PeriodontalExam
  measurements : List ToothMeasurement
deriving DecidableEq, Repr

/-! ### Canonical tooth enumeration (`views.py`) -/

/-- Model of Python `list(range(a, b, -1))` for `a > b`. -/
def rangeDown (a b : Nat) : List Nat := (List.range (a - b)).map (fun i => a - i)

/-- Model of Python `list(range(a, b))` for `a < b`. -/
def rangeUp (a b : Nat) : List Nat := (List.range (b - a)).map (fun i => a + i)

/-- The tooth number enumeration shared by `patient_detail` and
`periodontal_exam_create`:
`list(range(18, 10, -1)) + list(range(21, 29)) + list(range(48, 40, -1)) + list(range(31, 39))`. -/
def toothNumbers : List Nat :=
  rangeDown 18 10 ++ rangeUp 21 29 ++ rangeDown 48 40 ++ rangeUp 31 39

/-- The surfaces iterated by `periodontal_exam_create`, in loop order. -/
def surfacesList : List Surface := [.buccal, .lingual]

/-- The positions iterated by `periodontal_exam_create`, in loop order. -/
def positionsList : List Position := [.mesial, .middle, .distal]

/-- The 192 canonical (tooth, surface, position) combinations in the
nested loop order of `periodontal_exam_create`. -/
def canonicalTriples : List (Nat × Surface × Position) :=
  toothNumbers.flatMap (fun t =>
    surfacesList.flatMap (fun s =>
      positionsList.map (fun p => (t, s, p))))

/-! ### Periodontal exam write path (`periodontal_exam_create`) -/

/-- The form field name `<kind>_<tooth>_<surface>_<position>` built by
the f-strings in `periodontal_exam_create`. -/
def fieldKey (kind : String) (t : Nat) (s : Surface) (p : Position) : String :=
  kind ++ "_" ++ pyStr t ++ "_" ++ surfaceKey s ++ "_" ++ positionKey p

/-- `request.POST.get(f"depth_...")`: the raw submitted depth string,
`none` when the field is absent. -/
def depthRaw (post : String → Option String) (t : Nat) (s : Surface) (p : Position) :
    Option String :=
  post (fieldKey "depth" t s p)

/-- The guard `if depth and depth.strip():` — the depth field is
present, nonempty, and nonempty after stripping whitespace. -/
def isSubmitted (post : String → Option String) (t : Nat) (s : Surface) (p : Position) :
    Bool :=
  match depthRaw post t s p with
  | none => false
  | some d => d ≠ "" && pyStrip d ≠ ""

/-- `request.POST.get(f"bleeding_...") == "on"`; an absent field
compares unequal, giving `false`. -/
def bleedingFlag (post : String → Option String) (t : Nat) (s : Surface) (p : Position) :
    Bool :=
  post (fieldKey "bleeding" t s p) == some "on"

/-- `request.POST.get(f"calculus_...") == "on"`. -/
def calculusFlag (post : String → Option String) (t : Nat) (s : Surface) (p : Position) :
    Bool :=
  post (fieldKey "calculus" t s p) == some "on"

/-- `int(depth)` applied to the raw submitted depth. -/
def parsedDepth (post : String → Option String) (t : Nat) (s : Surface) (p : Position) :
    Option Int :=
  (depthRaw post t s p).bind pyInt

/-- The nested measurement loop of `periodontal_exam_create` over the
remaining (tooth, surface, position) combinations: skip combinations
whose depth is absent or blank (`isSubmitted` is the guard
`if depth and depth.strip():`), otherwise create one row via
`ToothMeasurement.objects.create(...)` with `pocket_depth=int(depth)`
(`parsedDepth`; in this branch the field is present, so the `bind`
inside `parsedDepth` is exactly `int(depth)`).  Returns the rows
created (each already committed) and `true` when `int(depth)` raised
`ValueError`, which aborts the loop. -/
def createMeasurements (eid : Nat) (post : String → Option String) :
    List (Nat × Surface × Position) → List ToothMeasurement × Bool
  | [] => ([], false)
  | (t, s, p) :: rest =>
    if isSubmitted post t s p then
      match parsedDepth post t s p with
      | none => ([], true)
      | some v =>
        let m : ToothMeasurement :=
          { exam := eid, tooth_number := t, position := p, surface := s,
            pocket_depth := v, bleeding := bleedingFlag post t s p,
            calculus := calculusFlag post t s p, mobility := none }
        let res := createMeasurements eid post rest
        (m :: res.1, res.2)
    else createMeasurements eid post rest

/-- The POST branch of `periodontal_exam_create`: first
`PeriodontalExam.objects.create(...)` commits the exam row, then the
measurement loop runs; each create commits individually (no transaction
wrapper), so on a `ValueError` (second component `true`) the returned
`Db` is the state actually persisted: the exam row and the measurement
rows created before the failure. -/
def periodontal_exam_create (db : Db) (eid pid : Nat) (exam_date : Int)
    (dentist : Option Nat) (notes : String) (post : String → Option String) :
    Db × Bool :=
  let exam : PeriodontalExam :=
    { id := eid, patient := pid, exam_date := exam_date,
      dentist := dentist, notes := notes }
  let res := createMeasurements eid post canonicalTriples
  ({ exams := db.exams ++ [exam], measurements := db.measurements ++ res.1 }, res.2)

/-! ### Periodontal exam read path (`periodontal_exam_detail`) -/

/-- The inner dictionary created for a tooth the first time one of its
measurements is seen: a surface and position indexed table of optional
rows. -/
abbrev Slots := Surface → Position → Option ToothMeasurement

/-- `tooth_data`, the two level dictionary built by the read path:
tooth numbers that were never inserted are absent (`none`). -/
abbrev Grid := Nat → Option Slots

/-- `\x7b"buccal": \x7b"mesial": None, ...\x7d, ...\x7d`: all six slots empty. -/
def emptySlots : Slots := fun _ _ => none

/-- `tooth_data[m.tooth_number][m.surface][m.position] = m`. -/
def slotSet (sl : Slots) (m : ToothMeasurement) : Slots :=
  fun s p => if s = m.surface ∧ p = m.position then some m else sl s p

/-- One iteration of the read loop: create the empty inner dictionary
for an unseen tooth number, then store the row under its surface and
position. -/
def gridInsert (g : Grid) (m : ToothMeasurement) : Grid :=
  fun t =>
    if t = m.tooth_number then
      some (slotSet ((g m.tooth_number).getD emptySlots) m)
    else g t

/-- The read loop of `periodontal_exam_detail` over a measurement list. -/
def buildGrid (ms : List ToothMeasurement) : Grid :=
  ms.foldl gridInsert (fun _ => none)

/-- Lookup of one grid slot (the rendered cell). -/
def gridSlot (g : Grid) (t : Nat) (s : Surface) (p : Position) :
    Option ToothMeasurement :=
  match g t with
  | none => none
  | some sl => sl s p

/-- The `order_by("tooth_number", "surface", "position")` key order on
measurement rows (surface and position compare as their stored
strings); this is also the model `Meta.ordering` applied to a plain
`.all()`. -/
def measLe (a b : ToothMeasurement) : Prop :=
  a.tooth_number < b.tooth_number ∨
    (a.tooth_number = b.tooth_number ∧
      (strLtB (surfaceKey a.surface) (surfaceKey b.surface) = true ∨
        (a.surface = b.surface ∧
          (strLtB (positionKey a.position) (positionKey b.position) = true ∨
            a.position = b.position))))

instance : DecidableRel measLe := fun a b => by
  unfold measLe; infer_instance

/-- `exam.measurements.all().order_by("tooth_number", "surface",
"position")`: the rows of one exam in sorted order. -/
def examMeasurements (db : Db) (eid : Nat) : List ToothMeasurement :=
  List.insertionSort measLe
    (db.measurements.filter (fun m => m.exam == eid))

/-- `tooth_data` as assembled by `periodontal_exam_detail` for one exam. -/
def tooth_data (db : Db) (eid : Nat) : Grid := buildGrid (examMeasurements db eid)

/-- One step of selecting the row with the greatest exam date (the
effect of `order_by("-exam_date").first()`); on a tie the earliest
stored row is kept, a choice the database leaves unspecified. -/
def prevStep (acc : Option PeriodontalExam) (q : PeriodontalExam) :
    Option PeriodontalExam :=
  match acc with
  | none => some q
  | some a => if a.exam_date < q.exam_date then some q else some a

/-- `PeriodontalExam.objects.filter(patient=..., exam_date__lt=...)
.order_by("-exam_date").first()`: among the rows passing the filter,
one with the greatest exam date. -/
def previous_exam (db : Db) (e : PeriodontalExam) : Option PeriodontalExam :=
  (db.exams.filter (fun q =>
      q.patient == e.patient && decide (q.exam_date < e.exam_date))).foldl
    prevStep none

/-- `previous_data`: the grid of the previous exam, or the empty
dictionary when no strictly earlier exam of the patient exists. -/
def previous_data (db : Db) (e : PeriodontalExam) : Grid :=
  match previous_exam db e with
  | none => fun _ => none
  | some p => tooth_data db p.id

/-! ### Dental chart (`patient_detail`, `tooth_update`) -/

/-- `Tooth.TOOTH_STATUS_CHOICES`. -/
def TOOTH_STATUS_CHOICES : List (String × String) :=
  [("healthy", "Healthy"), ("cavity", "Cavity"), ("filled", "Filled"),
   ("crown", "Crown"), ("root_canal", "Root Canal"), ("missing", "Missing"),
   ("implant", "Implant"), ("bridge", "Bridge")]

/-- `dict(Tooth.TOOTH_STATUS_CHOICES).keys()`. -/
def validStatuses : List String := TOOTH_STATUS_CHOICES.map Prod.fst

/-- `tooth.get_status_display()`: the label of the stored status (Django
returns the raw value itself when it is not among the choices). -/
def getStatusDisplay (s : String) : String :=
  (TOOTH_STATUS_CHOICES.lookup s).getD s

/-- The chart initialization step of `patient_detail`: when the patient
has no tooth rows (`not teeth_queryset.exists()`), create one row per
entry of `toothNumbers` with `status="healthy"` (notes take the model
default, the empty string); otherwise create nothing.  The result is
the patient tooth table after the view ran, in creation order. -/
def patient_detail_teeth (existing : List Tooth) (pid : Nat) : List Tooth :=
  if existing.isEmpty then
    toothNumbers.map (fun n =>
      { patient := pid, tooth_number := n, status := "healthy", notes := "" })
  else existing

/-- The JSON body outcome of `tooth_update`. -/
inductive ToothUpdateRes
  | invalidStatus
  | ok (tooth_number : Nat) (status : String) (status_display : String) (notes : String)
deriving DecidableEq, Repr

/-- The `tooth_update` endpoint on a parsed JSON body:
`data.get("status")` and `data.get("notes", "")`.  An unknown (or
absent) status returns the 400 response and leaves the row untouched;
otherwise the status is stored, the notes only when nonempty (Python
truthiness), and the response carries the persisted state together
with the display label. -/
def tooth_update (tooth : Tooth) (statusIn : Option String) (notesIn : Option String) :
    Tooth × ToothUpdateRes :=
  let notes := notesIn.getD ""
  match statusIn with
  | none => (tooth, .invalidStatus)
  | some new_status =>
    if new_status ∈ validStatuses then
      let tooth' : Tooth :=
        { tooth with
          status := new_status,
          notes := if notes ≠ "" then notes else tooth.notes }
      (tooth', .ok tooth.tooth_number tooth'.status (getStatusDisplay tooth'.status)
        tooth'.notes)
    else (tooth, .invalidStatus)

/-! ### Derived notions and concrete inputs used in the statements -/

/-- The identifying key of a measurement row inside its exam
(`unique_together = ["exam", "tooth_number", "position", "surface"]`
projected to one exam). -/
def measKey (m : ToothMeasurement) : Nat × Surface × Position :=
  (m.tooth_number, m.surface, m.position)

/-- The row the write path stores for a submitted combination: depth
`int(depth)`, flags from the `== "on"` comparisons, mobility never
set. -/
def mkMeasOf (eid : Nat) (post : String → Option String)
    (t : Nat) (s : Surface) (p : Position) : ToothMeasurement :=
  { exam := eid, tooth_number := t, position := p, surface := s,
    pocket_depth := (parsedDepth post t s p).getD 0,
    bleeding := bleedingFlag post t s p,
    calculus := calculusFlag post t s p, mobility := none }

/-- The empty database. -/
def db0 : Db := { exams := [], measurements := [] }

/-- The example submission of the specification: depth 3 with bleeding
at tooth 18, buccal mesial; the middle position left blank. -/
def postW1 : String → Option String := fun k =>
  if k = "depth_18_buccal_mesial" then some "3"
  else if k = "bleeding_18_buccal_mesial" then some "on"
  else if k = "depth_18_buccal_middle" then some ""
  else none

/-- A submission with one well formed depth followed (in loop order) by
a malformed one. -/
def postC6 : String → Option String := fun k =>
  if k = "depth_18_buccal_mesial" then some "3"
  else if k = "depth_18_buccal_middle" then some "abc"
  else none

/-- A concrete chart row. -/
def toothW : Tooth :=
  { patient := 5, tooth_number := 18, status := "healthy", notes := "old" }

/-- Concrete exams of one patient on distinct dates, and one on an
unrelated patient. -/
def examA : PeriodontalExam :=
  { id := 1, patient := 5, exam_date := 10, dentist := some 2, notes := "" }

/-- The later exam of the same patient. -/
def examB : PeriodontalExam :=
  { id := 2, patient := 5, exam_date := 20, dentist := some 2, notes := "" }

/-- An exam of a different patient, earlier than both. -/
def examC : PeriodontalExam :=
  { id := 3, patient := 6, exam_date := 5, dentist := none, notes := "" }

/-- A measurement row of `examA`. -/
def measA : ToothMeasurement :=
  { exam := 1, tooth_number := 18, position := .mesial, surface := .buccal,
    pocket_depth := 4, bleeding := true, calculus := false, mobility := none }

/-- The database holding the three exams and the one measurement. -/
def dbAB : Db := { exams := [examC, examA, examB], measurements := [measA] }

/-! ### C4: lazy dental chart initialization -/

/-- C4: viewing the chart of a patient with zero tooth rows creates
exactly 32 rows, status "healthy" and empty notes, in the canonical
FDI order 18 down to 11, 21 up to 28, 48 down to 41, 31 up to 38; when
at least one tooth row already exists the view creates none, so a
second read after a first creates zero additional rows. -/
theorem C4_lazy_chart_initialization :
    (∀ pid : Nat,
      (patient_detail_teeth [] pid).map Tooth.tooth_number =
        [18, 17, 16, 15, 14, 13, 12, 11, 21, 22, 23, 24, 25, 26, 27, 28,
         48, 47, 46, 45, 44, 43, 42, 41, 31, 32, 33, 34, 35, 36, 37, 38] ∧
      (patient_detail_teeth [] pid).length = 32 ∧
      ∀ t ∈ patient_detail_teeth [] pid,
        t.patient = pid ∧ t.status = "healthy" ∧ t.notes = "") ∧
    (∀ (existing : List Tooth) (pid : Nat), existing ≠ [] →
      patient_detail_teeth existing pid = existing) ∧
    (∀ pid : Nat,
      patient_detail_teeth (patient_detail_teeth [] pid) pid =
        patient_detail_teeth [] pid) := by
  have hfresh : ∀ pid : Nat,
      patient_detail_teeth [] pid =
        toothNumbers.map (fun n =>
          { patient := pid, tooth_number := n, status := "healthy", notes := "" }) := by
    intro pid; rfl
  have hnonempty : ∀ (existing : List Tooth) (pid : Nat), existing ≠ [] →
      patient_detail_teeth existing pid = existing := by
    intro existing pid h
    unfold patient_detail_teeth
    cases existing with
    | nil => exact absurd rfl h
    | cons a l => rfl
  refine ⟨fun pid => ⟨?_, ?_, ?_⟩, hnonempty, fun pid => ?_⟩
  · rfl
  · rw [hfresh, List.length_map]
    decide
  · intro t ht
    rw [hfresh] at ht
    rcases List.mem_map.mp ht with ⟨n, _, rfl⟩
    exact ⟨rfl, rfl, rfl⟩
  · refine hnonempty _ pid ?_
    intro hnil
    have h32 := congrArg List.length hnil
    rw [hfresh, List.length_map] at h32
    exact absurd h32 (by decide)

/-- C4 witness: a chart with one existing row is left unchanged. -/
theorem C4_lazy_chart_initialization_witness :
    patient_detail_teeth [toothW] 5 = [toothW] :=
  C4_lazy_chart_initialization.2.1 [toothW] 5 (by decide)

/-! ### C5: tooth status update validation -/

/-- C5: an unknown (or absent) requested status makes `tooth_update`
fail with the validation error response and leaves the tooth row
unchanged; a canonical status is persisted (notes only when the
supplied notes string is nonempty) and the response carries the new
status with its display label. -/
theorem C5_tooth_status_update_validation :
    ∀ (t : Tooth) (notesIn : Option String),
      (tooth_update t none notesIn = (t, .invalidStatus)) ∧
      (∀ s, s ∉ validStatuses →
        tooth_update t (some s) notesIn = (t, .invalidStatus)) ∧
      (∀ s, s ∈ validStatuses →
        tooth_update t (some s) notesIn =
          ({ t with
              status := s
              notes := if notesIn.getD "" ≠ "" then notesIn.getD "" else t.notes },
            .ok t.tooth_number s (getStatusDisplay s)
              (if notesIn.getD "" ≠ "" then notesIn.getD "" else t.notes))) := by
  intro t notesIn
  refine ⟨rfl, ?_, ?_⟩
  · intro s hs
    unfold tooth_update
    simp [hs]
  · intro s hs
    unfold tooth_update
    simp [hs]

/-- C5 witness: the unknown status "bogus" is rejected without change,
and the canonical status "cavity" with notes "n" is persisted and
echoed with its label. -/
theorem C5_tooth_status_update_validation_witness :
    ("bogus" ∉ validStatuses ∧
      tooth_update toothW (some "bogus") none = (toothW, .invalidStatus)) ∧
    ("cavity" ∈ validStatuses ∧
      tooth_update toothW (some "cavity") (some "n") =
        ({ toothW with
            status := "cavity"
            notes := if (some "n").getD "" ≠ "" then (some "n").getD "" else toothW.notes },
          .ok toothW.tooth_number "cavity" (getStatusDisplay "cavity")
            (if (some "n").getD "" ≠ "" then (some "n").getD "" else toothW.notes))) :=
  ⟨⟨by decide, (C5_tooth_status_update_validation toothW none).2.1 "bogus" (by decide)⟩,
   ⟨by decide, (C5_tooth_status_update_validation toothW (some "n")).2.2 "cavity" (by decide)⟩⟩

/-! ### Write path lemmas shared by several claims -/

/-- Unfolding equation of the write loop: combination skipped. -/
theorem createMeasurements_cons_skip (eid : Nat) (post : String → Option String)
    (t : Nat) (s : Surface) (p : Position) (rest : List (Nat × Surface × Position))
    (hs : isSubmitted post t s p = false) :
    createMeasurements eid post ((t, s, p) :: rest) =
      createMeasurements eid post rest := by
  rw [createMeasurements]
  simp [hs]

/-- Unfolding equation of the write loop: submitted depth fails to
parse, the loop aborts with the `ValueError` flag. -/
theorem createMeasurements_cons_err (eid : Nat) (post : String → Option String)
    (t : Nat) (s : Surface) (p : Position) (rest : List (Nat × Surface × Position))
    (hs : isSubmitted post t s p = true) (hv : parsedDepth post t s p = none) :
    createMeasurements eid post ((t, s, p) :: rest) = ([], true) := by
  rw [createMeasurements, if_pos hs, hv]

/-- Unfolding equation of the write loop: submitted depth parses, one
row is created. -/
theorem createMeasurements_cons_row (eid : Nat) (post : String → Option String)
    (t : Nat) (s : Surface) (p : Position) (rest : List (Nat × Surface × Position))
    (v : Int) (hs : isSubmitted post t s p = true)
    (hv : parsedDepth post t s p = some v) :
    createMeasurements eid post ((t, s, p) :: rest) =
      (mkMeasOf eid post t s p :: (createMeasurements eid post rest).1,
        (createMeasurements eid post rest).2) := by
  rw [createMeasurements, if_pos hs, hv]
  simp [mkMeasOf, hv]

/-- Every row created by the measurement loop carries a key drawn from
the processed combination list, the exam foreign key it was called
with, and an unset mobility. -/
theorem createMeasurements_mem :
    ∀ (triples : List (Nat × Surface × Position)) (eid : Nat)
      (post : String → Option String) (m : ToothMeasurement),
      m ∈ (createMeasurements eid post triples).1 →
      measKey m ∈ triples ∧ m.exam = eid ∧ m.mobility = none := by
  intro triples
  induction triples with
  | nil =>
    intro eid post m hm
    simp [createMeasurements] at hm
  | cons x rest ih =>
    obtain ⟨t, s, p⟩ := x
    intro eid post m hm
    cases hs : isSubmitted post t s p with
    | false =>
      rw [createMeasurements_cons_skip eid post t s p rest hs] at hm
      rcases ih eid post m hm with ⟨h1, h2, h3⟩
      exact ⟨List.mem_cons_of_mem _ h1, h2, h3⟩
    | true =>
      cases hv : parsedDepth post t s p with
      | none =>
        rw [createMeasurements_cons_err eid post t s p rest hs hv] at hm
        simp at hm
      | some v =>
        rw [createMeasurements_cons_row eid post t s p rest v hs hv] at hm
        rcases List.mem_cons.mp hm with rfl | hm
        · exact ⟨List.mem_cons_self _ _, rfl, rfl⟩
        · rcases ih eid post m hm with ⟨h1, h2, h3⟩
          exact ⟨List.mem_cons_of_mem _ h1, h2, h3⟩

/-- When the processed combinations are pairwise distinct, the created
rows have pairwise distinct keys. -/
theorem createMeasurements_keys_pairwise :
    ∀ (triples : List (Nat × Surface × Position)) (eid : Nat)
      (post : String → Option String),
      triples.Pairwise (· ≠ ·) →
      (createMeasurements eid post triples).1.Pairwise
        (fun a b => measKey a ≠ measKey b) := by
  intro triples
  induction triples with
  | nil =>
    intro eid post _
    simp [createMeasurements]
  | cons x rest ih =>
    obtain ⟨t, s, p⟩ := x
    intro eid post hpw
    rcases List.pairwise_cons.mp hpw with ⟨hhead, htail⟩
    cases hs : isSubmitted post t s p with
    | false =>
      rw [createMeasurements_cons_skip eid post t s p rest hs]
      exact ih eid post htail
    | true =>
      cases hv : parsedDepth post t s p with
      | none =>
        rw [createMeasurements_cons_err eid post t s p rest hs hv]
        simp
      | some v =>
        rw [createMeasurements_cons_row eid post t s p rest v hs hv]
        refine List.pairwise_cons.mpr ⟨?_, ih eid post htail⟩
        intro b hb
        have hkey := (createMeasurements_mem rest eid post b hb).1
        have hne := hhead _ hkey
        intro hcontra
        apply hne
        rw [← hcontra]
        rfl

/-- The canonical combination list is duplicate free. -/
theorem canonicalTriples_nodup : canonicalTriples.Pairwise (· ≠ ·) := by
  have h : canonicalTriples.Nodup := by decide
  exact h

/-! ### Grid assembly lemmas (read path) -/

/-- One read loop iteration: the inserted row occupies its own slot,
every other slot is unchanged. -/
theorem gridSlot_gridInsert (g : Grid) (m : ToothMeasurement)
    (t : Nat) (s : Surface) (p : Position) :
    gridSlot (gridInsert g m) t s p =
      if t = m.tooth_number ∧ s = m.surface ∧ p = m.position then some m
      else gridSlot g t s p := by
  unfold gridSlot gridInsert slotSet
  by_cases ht : t = m.tooth_number
  · subst ht
    by_cases hsp : s = m.surface ∧ p = m.position
    · simp [hsp]
    · cases hgt : g m.tooth_number with
      | none => simp [hgt, hsp, emptySlots]
      | some sl => simp [hgt, hsp]
  · simp [ht]

/-- Folding the read loop over rows none of which carry the probed key
leaves the slot unchanged. -/
theorem foldl_gridInsert_slot_not_mem :
    ∀ (ms : List ToothMeasurement) (g : Grid) (t : Nat) (s : Surface) (p : Position),
      (∀ m ∈ ms, ¬(t = m.tooth_number ∧ s = m.surface ∧ p = m.position)) →
      gridSlot (ms.foldl gridInsert g) t s p = gridSlot g t s p := by
  intro ms
  induction ms with
  | nil => intro g t s p _; rfl
  | cons a ms ih =>
    intro g t s p h
    rw [List.foldl_cons, ih _ t s p (fun m hm => h m (List.mem_cons_of_mem _ hm)),
      gridSlot_gridInsert]
    simp [h a (List.mem_cons_self _ _)]

/-- With pairwise distinct keys, the slot of a present row resolves to
that row whatever the initial accumulator held. -/
theorem foldl_gridInsert_slot_mem :
    ∀ (ms : List ToothMeasurement) (g : Grid) (m : ToothMeasurement),
      ms.Pairwise (fun a b => measKey a ≠ measKey b) → m ∈ ms →
      gridSlot (ms.foldl gridInsert g) m.tooth_number m.surface m.position = some m := by
  intro ms
  induction ms with
  | nil => intro g m _ hm; simp at hm
  | cons a ms ih =>
    intro g m hpw hm
    rcases List.pairwise_cons.mp hpw with ⟨hhead, htail⟩
    rw [List.foldl_cons]
    rcases List.mem_cons.mp hm with rfl | hm
    · rw [foldl_gridInsert_slot_not_mem]
      · rw [gridSlot_gridInsert]
        simp
      · intro b hb hcontra
        exact hhead b hb (by
          rcases hcontra with ⟨h1, h2, h3⟩
          simp [measKey, ← h1, ← h2, ← h3])
    · exact ih _ m htail hm

/-- A populated slot can only hold a row of the folded list with the
matching key, unless it was already populated in the accumulator. -/
theorem foldl_gridInsert_slot_some :
    ∀ (ms : List ToothMeasurement) (g : Grid) (t : Nat) (s : Surface) (p : Position)
      (m : ToothMeasurement),
      gridSlot (ms.foldl gridInsert g) t s p = some m →
      (m ∈ ms ∧ t = m.tooth_number ∧ s = m.surface ∧ p = m.position) ∨
        gridSlot g t s p = some m := by
  intro ms
  induction ms with
  | nil => intro g t s p m h; exact Or.inr h
  | cons a ms ih =>
    intro g t s p m h
    rw [List.foldl_cons] at h
    rcases ih _ t s p m h with ⟨h1, h2⟩ | hbase
    · exact Or.inl ⟨List.mem_cons_of_mem _ h1, h2⟩
    · rw [gridSlot_gridInsert] at hbase
      by_cases hk : t = a.tooth_number ∧ s = a.surface ∧ p = a.position
      · rw [if_pos hk] at hbase
        cases hbase
        exact Or.inl ⟨List.mem_cons_self _ _, hk⟩
      · rw [if_neg hk] at hbase
        exact Or.inr hbase

/-- A tooth number is a key of the assembled dictionary exactly when
some folded row mentions it (or it was already a key). -/
theorem foldl_gridInsert_isSome :
    ∀ (ms : List ToothMeasurement) (g : Grid) (t : Nat),
      ((ms.foldl gridInsert g) t).isSome = true ↔
        (∃ m ∈ ms, m.tooth_number = t) ∨ (g t).isSome = true := by
  intro ms
  induction ms with
  | nil =>
    intro g t
    simp
  | cons a ms ih =>
    intro g t
    rw [List.foldl_cons, ih]
    have hstep : ((gridInsert g a) t).isSome = true ↔
        a.tooth_number = t ∨ (g t).isSome = true := by
      unfold gridInsert
      by_cases ht : t = a.tooth_number
      · subst ht
        simp
      · rw [if_neg ht]
        constructor
        · exact fun h => Or.inr h
        · rintro (h | h)
          · exact absurd h.symm ht
          · exact h
    rw [hstep]
    constructor
    · rintro (⟨m, hm, rfl⟩ | h | h)
      · exact Or.inl ⟨m, List.mem_cons_of_mem _ hm, rfl⟩
      · exact Or.inl ⟨a, List.mem_cons_self _ _, h⟩
      · exact Or.inr h
    · rintro (⟨m, hm, rfl⟩ | h)
      · rcases List.mem_cons.mp hm with rfl | hm
        · exact Or.inr (Or.inl rfl)
        · exact Or.inl ⟨m, hm, rfl⟩
      · exact Or.inr (Or.inr h)

/-- Membership in the canonical combination list is membership of the
tooth component in the canonical tooth enumeration (the surface and
position components always qualify). -/
theorem mem_canonicalTriples_iff (t : Nat) (s : Surface) (p : Position) :
    (t, s, p) ∈ canonicalTriples ↔ t ∈ toothNumbers := by
  unfold canonicalTriples
  simp only [List.mem_flatMap, List.mem_map, Prod.mk.injEq]
  constructor
  · rintro ⟨t', ht', s', _, p', _, rfl, rfl, rfl⟩
    exact ht'
  · intro ht
    refine ⟨t, ht, s, ?_, p, ?_, rfl, rfl, rfl⟩
    · cases s <;> simp [surfacesList]
    · cases p <;> simp [positionsList]

/-- When every submitted depth parses, the write loop succeeds and
creates exactly the rows of the submitted combinations, in loop
order. -/
theorem createMeasurements_eq_filterMap :
    ∀ (triples : List (Nat × Surface × Position)) (eid : Nat)
      (post : String → Option String),
      (∀ x ∈ triples, isSubmitted post x.1 x.2.1 x.2.2 = true →
        (parsedDepth post x.1 x.2.1 x.2.2).isSome = true) →
      createMeasurements eid post triples =
        (triples.filterMap (fun x =>
          if isSubmitted post x.1 x.2.1 x.2.2 = true then
            some (mkMeasOf eid post x.1 x.2.1 x.2.2)
          else none), false) := by
  intro triples
  induction triples with
  | nil => intro eid post _; rfl
  | cons x rest ih =>
    obtain ⟨t, s, p⟩ := x
    intro eid post h
    have hrest := ih eid post (fun y hy => h y (List.mem_cons_of_mem _ hy))
    rw [List.filterMap_cons]
    cases hs : isSubmitted post t s p with
    | false =>
      rw [createMeasurements_cons_skip eid post t s p rest hs, hrest]
      simp
    | true =>
      have hpd : (parsedDepth post t s p).isSome = true :=
        h (t, s, p) (List.mem_cons_self _ _) hs
      cases hv : parsedDepth post t s p with
      | none => rw [hv] at hpd; simp at hpd
      | some v =>
        rw [createMeasurements_cons_row eid post t s p rest v hs hv, hrest]
        simp

/-- The tooth component of the row built for a submitted combination. -/
theorem mkMeasOf_tooth_number (eid : Nat) (post : String → Option String)
    (t : Nat) (s : Surface) (p : Position) :
    (mkMeasOf eid post t s p).tooth_number = t := rfl

/-- The key of the row built for a submitted combination is that
combination. -/
theorem measKey_mkMeasOf (eid : Nat) (post : String → Option String)
    (t : Nat) (s : Surface) (p : Position) :
    measKey (mkMeasOf eid post t s p) = (t, s, p) := rfl

/-- Membership in the row set of a successful write pass, stated
through the submitted combinations. -/
theorem mem_filterMap_rows (eid : Nat) (post : String → Option String)
    (m : ToothMeasurement) :
    m ∈ canonicalTriples.filterMap (fun x =>
        if isSubmitted post x.1 x.2.1 x.2.2 = true then
          some (mkMeasOf eid post x.1 x.2.1 x.2.2)
        else none) ↔
      ∃ x ∈ canonicalTriples, isSubmitted post x.1 x.2.1 x.2.2 = true ∧
        m = mkMeasOf eid post x.1 x.2.1 x.2.2 := by
  rw [List.mem_filterMap]
  constructor
  · rintro ⟨x, hx, hfx⟩
    by_cases hsx : isSubmitted post x.1 x.2.1 x.2.2 = true
    · rw [if_pos hsx] at hfx
      exact ⟨x, hx, hsx, (Option.some.inj hfx).symm⟩
    · rw [if_neg hsx] at hfx
      simp at hfx
  · rintro ⟨x, hx, hsx, rfl⟩
    exact ⟨x, hx, by rw [if_pos hsx]⟩

/-! ### C1: grid round trip -/

/-- C1: creating an exam from a sparse submission in which every
submitted depth parses succeeds, and reading the exam back yields a
grid whose keys are canonical tooth numbers, where a canonical tooth
appears exactly when one of its six combinations was submitted, every
submitted combination holds exactly the row built from the submitted
depth and flags, every unsubmitted canonical combination is absent,
and the number of populated slots equals the number of submitted
combinations. -/
theorem C1_grid_round_trip :
    ∀ (db : Db) (eid pid : Nat) (exam_date : Int) (dentist : Option Nat)
      (notes : String) (post : String → Option String),
      (∀ m ∈ db.measurements, m.exam ≠ eid) →
      (∀ x ∈ canonicalTriples, isSubmitted post x.1 x.2.1 x.2.2 = true →
        (parsedDepth post x.1 x.2.1 x.2.2).isSome = true) →
      (periodontal_exam_create db eid pid exam_date dentist notes post).2 = false ∧
      ∀ g : Grid,
        g = tooth_data (periodontal_exam_create db eid pid exam_date dentist notes post).1 eid →
        (∀ t : Nat, (g t).isSome = true → t ∈ toothNumbers) ∧
        (∀ t ∈ toothNumbers, ((g t).isSome = true ↔
            ∃ s : Surface, ∃ p : Position, isSubmitted post t s p = true)) ∧
        (∀ x ∈ canonicalTriples,
          gridSlot g x.1 x.2.1 x.2.2 =
            if isSubmitted post x.1 x.2.1 x.2.2 = true then
              some (mkMeasOf eid post x.1 x.2.1 x.2.2)
            else none) ∧
        (canonicalTriples.countP (fun x => (gridSlot g x.1 x.2.1 x.2.2).isSome) =
          canonicalTriples.countP (fun x => isSubmitted post x.1 x.2.1 x.2.2)) := by
  intro db eid pid exam_date dentist notes post H1 H2
  have hcm := createMeasurements_eq_filterMap canonicalTriples eid post H2
  refine ⟨by simp [periodontal_exam_create, hcm], ?_⟩
  intro g hg
  have hms1 : (createMeasurements eid post canonicalTriples).1 =
      canonicalTriples.filterMap (fun x =>
        if isSubmitted post x.1 x.2.1 x.2.2 = true then
          some (mkMeasOf eid post x.1 x.2.1 x.2.2)
        else none) := by rw [hcm]
  have hmemF : ∀ m ∈ (createMeasurements eid post canonicalTriples).1, m.exam = eid :=
    fun m hm => (createMeasurements_mem canonicalTriples eid post m hm).2.1
  have hfilter :
      ((periodontal_exam_create db eid pid exam_date dentist notes post).1.measurements.filter
        (fun m => m.exam == eid)) = (createMeasurements eid post canonicalTriples).1 := by
    simp only [periodontal_exam_create]
    rw [List.filter_append]
    rw [List.filter_eq_nil_iff.mpr (fun m hm => by simp [H1 m hm]),
      List.filter_eq_self.mpr (fun m hm => by simp [hmemF m hm])]
    simp
  have hgrid : g = buildGrid (List.insertionSort measLe
      (createMeasurements eid post canonicalTriples).1) := by
    rw [hg]
    unfold tooth_data examMeasurements
    rw [hfilter]
  have hperm : (List.insertionSort measLe
      (createMeasurements eid post canonicalTriples).1).Perm
      (createMeasurements eid post canonicalTriples).1 :=
    List.perm_insertionSort measLe _
  have hpairS : (List.insertionSort measLe
      (createMeasurements eid post canonicalTriples).1).Pairwise
      (fun a b => measKey a ≠ measKey b) :=
    (hperm.pairwise_iff (fun h hc => h hc.symm)).mpr
      (createMeasurements_keys_pairwise canonicalTriples eid post canonicalTriples_nodup)
  have hmemS : ∀ m : ToothMeasurement,
      m ∈ List.insertionSort measLe (createMeasurements eid post canonicalTriples).1 ↔
        ∃ x ∈ canonicalTriples, isSubmitted post x.1 x.2.1 x.2.2 = true ∧
          m = mkMeasOf eid post x.1 x.2.1 x.2.2 := by
    intro m
    rw [hperm.mem_iff, hms1, mem_filterMap_rows]
  have hslot : ∀ x ∈ canonicalTriples,
      gridSlot g x.1 x.2.1 x.2.2 =
        if isSubmitted post x.1 x.2.1 x.2.2 = true then
          some (mkMeasOf eid post x.1 x.2.1 x.2.2)
        else none := by
    rintro ⟨t, s, p⟩ hx
    cases hsx : isSubmitted post t s p with
    | true =>
      have hmk : mkMeasOf eid post t s p ∈
          List.insertionSort measLe (createMeasurements eid post canonicalTriples).1 :=
        (hmemS _).mpr ⟨(t, s, p), hx, hsx, rfl⟩
      have hres := foldl_gridInsert_slot_mem _ (fun _ => none) (mkMeasOf eid post t s p)
        hpairS hmk
      rw [hgrid]
      unfold buildGrid
      simpa using hres
    | false =>
      rw [hgrid]
      unfold buildGrid
      rw [foldl_gridInsert_slot_not_mem _ _ t s p ?_]
      · simp [gridSlot]
      · rintro m hm ⟨rfl, rfl, rfl⟩
        obtain ⟨⟨t', s', p'⟩, _, hsy, rfl⟩ := (hmemS m).mp hm
        rw [show (mkMeasOf eid post t' s' p').tooth_number = t' from rfl,
          show (mkMeasOf eid post t' s' p').surface = s' from rfl,
          show (mkMeasOf eid post t' s' p').position = p' from rfl] at hsx
        rw [hsy] at hsx
        cases hsx
  have hpresence : ∀ t : Nat, ((g t).isSome = true ↔
      ∃ x ∈ canonicalTriples, isSubmitted post x.1 x.2.1 x.2.2 = true ∧
        (mkMeasOf eid post x.1 x.2.1 x.2.2).tooth_number = t) := by
    intro t
    rw [hgrid]
    unfold buildGrid
    rw [foldl_gridInsert_isSome]
    simp only [Option.isSome_none, Bool.false_eq_true, or_false]
    constructor
    · rintro ⟨m, hm, rfl⟩
      obtain ⟨x, hx, hsx, rfl⟩ := (hmemS m).mp hm
      exact ⟨x, hx, hsx, rfl⟩
    · rintro ⟨x, hx, hsx, htooth⟩
      exact ⟨mkMeasOf eid post x.1 x.2.1 x.2.2, (hmemS _).mpr ⟨x, hx, hsx, rfl⟩, htooth⟩
  refine ⟨?_, ?_, hslot, ?_⟩
  · intro t ht
    obtain ⟨⟨t', s', p'⟩, hx, _, htooth⟩ := (hpresence t).mp ht
    rw [mkMeasOf_tooth_number] at htooth
    subst htooth
    exact (mem_canonicalTriples_iff _ s' p').mp hx
  · intro t ht
    rw [hpresence]
    constructor
    · rintro ⟨⟨t', s', p'⟩, hx, hsx, htooth⟩
      rw [mkMeasOf_tooth_number] at htooth
      subst htooth
      exact ⟨s', p', hsx⟩
    · rintro ⟨s', p', hsub⟩
      exact ⟨(t, s', p'), (mem_canonicalTriples_iff t s' p').mpr ht, hsub,
        mkMeasOf_tooth_number eid post t s' p'⟩
  · refine List.countP_congr ?_
    intro x hx
    rw [hslot x hx]
    cases hsx : isSubmitted post x.1 x.2.1 x.2.2 <;> simp

/-- C1 witness: the example submission (depth 3 with bleeding at tooth
18 buccal mesial, the middle position blank) satisfies both hypotheses
against the empty database, and the round trip property follows. -/
theorem C1_grid_round_trip_witness :
    (∀ m ∈ db0.measurements, m.exam ≠ 1) ∧
    (∀ x ∈ canonicalTriples, isSubmitted postW1 x.1 x.2.1 x.2.2 = true →
      (parsedDepth postW1 x.1 x.2.1 x.2.2).isSome = true) ∧
    ((periodontal_exam_create db0 1 7 100 none "" postW1).2 = false ∧
      ∀ g : Grid,
        g = tooth_data (periodontal_exam_create db0 1 7 100 none "" postW1).1 1 →
        (∀ t : Nat, (g t).isSome = true → t ∈ toothNumbers) ∧
        (∀ t ∈ toothNumbers, ((g t).isSome = true ↔
            ∃ s : Surface, ∃ p : Position, isSubmitted postW1 t s p = true)) ∧
        (∀ x ∈ canonicalTriples,
          gridSlot g x.1 x.2.1 x.2.2 =
            if isSubmitted postW1 x.1 x.2.1 x.2.2 = true then
              some (mkMeasOf 1 postW1 x.1 x.2.1 x.2.2)
            else none) ∧
        (canonicalTriples.countP (fun x => (gridSlot g x.1 x.2.1 x.2.2).isSome) =
          canonicalTriples.countP (fun x => isSubmitted postW1 x.1 x.2.1 x.2.2))) :=
  ⟨fun m hm => by simp [db0] at hm, by decide,
    C1_grid_round_trip db0 1 7 100 none "" postW1
      (fun m hm => by simp [db0] at hm) (by decide)⟩

/-! ### Previous exam selection lemmas -/

/-- The selection fold returns a row of the folded list (or the seed)
whose exam date dominates the seed and every folded row. -/
theorem foldl_prevStep_spec :
    ∀ (l : List PeriodontalExam) (acc : Option PeriodontalExam) (p : PeriodontalExam),
      l.foldl prevStep acc = some p →
      (acc = some p ∨ p ∈ l) ∧
      (∀ a, acc = some a → a.exam_date ≤ p.exam_date) ∧
      (∀ q ∈ l, q.exam_date ≤ p.exam_date) := by
  intro l
  induction l with
  | nil =>
    intro acc p h
    simp only [List.foldl_nil] at h
    refine ⟨Or.inl h, ?_, by simp⟩
    intro a ha
    rw [h] at ha
    injection ha with ha
    rw [ha]
  | cons q l ih =>
    intro acc p h
    rw [List.foldl_cons] at h
    rcases ih (prevStep acc q) p h with ⟨hmem, hacc, hall⟩
    cases acc with
    | none =>
      have hq : prevStep none q = some q := rfl
      rw [hq] at hmem hacc
      refine ⟨?_, ?_, ?_⟩
      · rcases hmem with h1 | h1
        · injection h1 with h1
          exact Or.inr (h1 ▸ List.mem_cons_self _ _)
        · exact Or.inr (List.mem_cons_of_mem _ h1)
      · intro a ha
        exact Option.noConfusion ha
      · intro r hr
        rcases List.mem_cons.mp hr with rfl | hr
        · exact hacc r rfl
        · exact hall r hr
    | some a =>
      by_cases hlt : a.exam_date < q.exam_date
      · have hq : prevStep (some a) q = some q := by simp [prevStep, hlt]
        rw [hq] at hmem hacc
        have hqp : q.exam_date ≤ p.exam_date := hacc q rfl
        refine ⟨?_, ?_, ?_⟩
        · rcases hmem with h1 | h1
          · injection h1 with h1
            exact Or.inr (h1 ▸ List.mem_cons_self _ _)
          · exact Or.inr (List.mem_cons_of_mem _ h1)
        · intro a' ha'
          injection ha' with ha'
          rw [← ha']
          exact le_of_lt (lt_of_lt_of_le hlt hqp)
        · intro r hr
          rcases List.mem_cons.mp hr with rfl | hr
          · exact hqp
          · exact hall r hr
      · have hq : prevStep (some a) q = some a := by simp [prevStep, hlt]
        rw [hq] at hmem hacc
        have hap : a.exam_date ≤ p.exam_date := hacc a rfl
        refine ⟨?_, ?_, ?_⟩
        · rcases hmem with h1 | h1
          · exact Or.inl h1
          · exact Or.inr (List.mem_cons_of_mem _ h1)
        · intro a' ha'
          injection ha' with ha'
          rw [← ha']
          exact hap
        · intro r hr
          rcases List.mem_cons.mp hr with rfl | hr
          · exact le_trans (le_of_not_lt hlt) hap
          · exact hall r hr

/-- The selection fold yields no row exactly on the empty candidate
list with an empty seed. -/
theorem foldl_prevStep_eq_none :
    ∀ (l : List PeriodontalExam) (acc : Option PeriodontalExam),
      l.foldl prevStep acc = none ↔ (l = [] ∧ acc = none) := by
  intro l
  induction l with
  | nil => intro acc; simp
  | cons q l ih =>
    intro acc
    rw [List.foldl_cons, ih]
    constructor
    · rintro ⟨_, h2⟩
      exfalso
      cases acc with
      | none => exact Option.noConfusion h2
      | some a =>
        rw [prevStep] at h2
        split at h2 <;> exact Option.noConfusion h2
    · rintro ⟨h, _⟩
      exact absurd h (by simp)

/-- Folding over a list all of whose rows equal the seed keeps the
seed. -/
theorem foldl_prevStep_const :
    ∀ (l : List PeriodontalExam) (A : PeriodontalExam),
      (∀ q ∈ l, q = A) → l.foldl prevStep (some A) = some A := by
  intro l
  induction l with
  | nil => intro A _; rfl
  | cons q l ih =>
    intro A h
    have hq : q = A := h q (List.mem_cons_self _ _)
    subst hq
    rw [List.foldl_cons]
    have hstep : prevStep (some q) q = some q := by simp [prevStep]
    rw [hstep]
    exact ih q (fun r hr => h r (List.mem_cons_of_mem _ hr))

/-- A nonempty candidate list all of whose rows are one row selects
that row. -/
theorem foldl_prevStep_const_of_ne_nil :
    ∀ (l : List PeriodontalExam) (A : PeriodontalExam),
      l ≠ [] → (∀ q ∈ l, q = A) → l.foldl prevStep none = some A := by
  intro l A hne h
  cases l with
  | nil => exact absurd rfl hne
  | cons q l =>
    have hq : q = A := h q (List.mem_cons_self _ _)
    subst hq
    rw [List.foldl_cons]
    show List.foldl prevStep (some q) l = some q
    exact foldl_prevStep_const l q (fun r hr => h r (List.mem_cons_of_mem _ hr))

/-! ### C2: previous exam selection -/

/-- C2: the comparison exam selected when reading an exam belongs to
the same patient, has an exam date strictly earlier than the read exam
(so equal or later dates are never selected), and dominates every
other strictly earlier exam of the patient; no selection happens
exactly when no strictly earlier exam of the patient exists, and then
the comparison grid is empty.  In particular, for exams A and B of one
patient with date of A strictly before date of B and no other exam of
that patient stored, reading B selects A and shows the grid of A as
the previous grid, while reading A selects nothing and shows the empty
grid. -/
theorem C2_previous_exam_selection :
    (∀ (db : Db) (e : PeriodontalExam),
      (∀ p, previous_exam db e = some p →
        p ∈ db.exams ∧ p.patient = e.patient ∧ p.exam_date < e.exam_date ∧
        ∀ q ∈ db.exams, q.patient = e.patient → q.exam_date < e.exam_date →
          q.exam_date ≤ p.exam_date) ∧
      (previous_exam db e = none ↔
        ∀ q ∈ db.exams, ¬(q.patient = e.patient ∧ q.exam_date < e.exam_date)) ∧
      (previous_exam db e = none → previous_data db e = fun _ => none)) ∧
    (∀ (db : Db) (A B : PeriodontalExam),
      A ∈ db.exams → A.patient = B.patient → A.exam_date < B.exam_date →
      (∀ q ∈ db.exams, q.patient = B.patient → q = A ∨ q = B) →
      previous_exam db B = some A ∧ previous_data db B = tooth_data db A.id ∧
      previous_exam db A = none ∧ previous_data db A = fun _ => none) := by
  constructor
  · intro db e
    refine ⟨?_, ?_, ?_⟩
    · intro p hp
      unfold previous_exam at hp
      rcases foldl_prevStep_spec _ none p hp with ⟨hmem, _, hall⟩
      rcases hmem with h1 | h1
      · exact Option.noConfusion h1
      · have hpf := List.mem_filter.mp h1
        have hcond : p.patient = e.patient ∧ p.exam_date < e.exam_date := by
          have h2 := hpf.2
          simp only [Bool.and_eq_true, beq_iff_eq, decide_eq_true_eq] at h2
          exact h2
        refine ⟨hpf.1, hcond.1, hcond.2, ?_⟩
        intro q hq hqp hqd
        exact hall q (List.mem_filter.mpr ⟨hq, by simp [hqp, hqd]⟩)
    · unfold previous_exam
      rw [foldl_prevStep_eq_none]
      simp only [and_true]
      rw [List.filter_eq_nil_iff]
      constructor
      · intro h q hq hcond
        have h2 := h q hq
        simp only [Bool.and_eq_true, beq_iff_eq, decide_eq_true_eq] at h2
        exact h2 hcond
      · intro h q hq hpred
        simp only [Bool.and_eq_true, beq_iff_eq, decide_eq_true_eq] at hpred
        exact h q hq hpred
    · intro hnone
      unfold previous_data
      rw [hnone]
  · intro db A B hA hpat hdate hOnly
    have hBall : ∀ q ∈ db.exams.filter (fun q =>
        q.patient == B.patient && decide (q.exam_date < B.exam_date)), q = A := by
      intro q hq
      have h2 := List.mem_filter.mp hq
      have hc : q.patient = B.patient ∧ q.exam_date < B.exam_date := by
        have h3 := h2.2
        simp only [Bool.and_eq_true, beq_iff_eq, decide_eq_true_eq] at h3
        exact h3
      rcases hOnly q h2.1 hc.1 with rfl | rfl
      · rfl
      · exact absurd hc.2 (lt_irrefl _)
    have hAin : A ∈ db.exams.filter (fun q =>
        q.patient == B.patient && decide (q.exam_date < B.exam_date)) :=
      List.mem_filter.mpr ⟨hA, by simp [hpat, hdate]⟩
    have hprevB : previous_exam db B = some A := by
      unfold previous_exam
      refine foldl_prevStep_const_of_ne_nil _ A ?_ hBall
      intro hnil
      rw [hnil] at hAin
      simp at hAin
    have hprevA : previous_exam db A = none := by
      unfold previous_exam
      rw [foldl_prevStep_eq_none]
      refine ⟨List.filter_eq_nil_iff.mpr ?_, rfl⟩
      intro q hq hpred
      simp only [Bool.and_eq_true, beq_iff_eq, decide_eq_true_eq] at hpred
      rcases hOnly q hq (hpred.1.trans hpat) with rfl | rfl
      · exact absurd hpred.2 (lt_irrefl _)
      · exact absurd (hpred.2.trans hdate) (lt_irrefl _)
    refine ⟨hprevB, ?_, hprevA, ?_⟩
    · unfold previous_data
      rw [hprevB]
    · unfold previous_data
      rw [hprevA]

/-- C2 witness: in the concrete database with exams A (date 10) and B
(date 20) of patient 5 and an exam of patient 6, reading B selects A
and its grid, reading A selects nothing and the empty grid. -/
theorem C2_previous_exam_selection_witness :
    previous_exam dbAB examB = some examA ∧
    previous_data dbAB examB = tooth_data dbAB examA.id ∧
    previous_exam dbAB examA = none ∧
    previous_data dbAB examA = fun _ => none :=
  C2_previous_exam_selection.2 dbAB examA examB (by decide) (by decide) (by decide)
    (by decide)

/-! ### C7: measurement key invariant -/

/-- C7: the canonical key space has 192 elements; every measurement
row produced by the exam write path has its (tooth, surface, position)
key inside it, and no two rows of the produced set share a key. -/
theorem C7_measurement_key_invariant :
    canonicalTriples.length = 192 ∧
    ∀ (eid : Nat) (post : String → Option String),
      (∀ m ∈ (createMeasurements eid post canonicalTriples).1,
        measKey m ∈ canonicalTriples) ∧
      (createMeasurements eid post canonicalTriples).1.Pairwise
        (fun a b => measKey a ≠ measKey b) := by
  refine ⟨by decide, fun eid post => ⟨?_, ?_⟩⟩
  · intro m hm
    exact (createMeasurements_mem canonicalTriples eid post m hm).1
  · exact createMeasurements_keys_pairwise canonicalTriples eid post canonicalTriples_nodup

/-- C7 witness: the single row created from the example submission has
its key among the canonical combinations. -/
theorem C7_measurement_key_invariant_witness :
    measKey
      { exam := 1, tooth_number := 18, position := .mesial, surface := .buccal,
        pocket_depth := 3, bleeding := true, calculus := false, mobility := none } ∈
      canonicalTriples :=
  (C7_measurement_key_invariant.2 1 postW1).1 _ (by decide)

/-! ### C10: mobility is never set by the documented write path -/

/-- C10: every measurement row in the database after an exam creation
either was already there or has an unset mobility — the creation
interface reads no mobility input. -/
theorem C10_mobility_never_set :
    ∀ (db : Db) (eid pid : Nat) (exam_date : Int) (dentist : Option Nat)
      (notes : String) (post : String → Option String),
      ∀ m ∈ (periodontal_exam_create db eid pid exam_date dentist notes post).1.measurements,
        m ∈ db.measurements ∨ m.mobility = none := by
  intro db eid pid exam_date dentist notes post m hm
  unfold periodontal_exam_create at hm
  simp only [List.mem_append] at hm
  rcases hm with hm | hm
  · exact Or.inl hm
  · exact Or.inr (createMeasurements_mem canonicalTriples eid post m hm).2.2

/-- C10 witness: the row created from the example submission has unset
mobility. -/
theorem C10_mobility_never_set_witness :
    ({ exam := 1, tooth_number := 18, position := .mesial, surface := .buccal,
       pocket_depth := 3, bleeding := true, calculus := false,
       mobility := none } : ToothMeasurement) ∈ db0.measurements ∨
    ({ exam := 1, tooth_number := 18, position := .mesial, surface := .buccal,
       pocket_depth := 3, bleeding := true, calculus := false,
       mobility := none } : ToothMeasurement).mobility = none :=
  C10_mobility_never_set db0 1 7 100 none "" postW1 _ (by decide)

/-! ### C6: the exam creation path is not atomic -/

/-- When some processed combination has a submitted depth that fails
to parse, the write loop reports the `ValueError`. -/
theorem createMeasurements_err_of_bad :
    ∀ (triples : List (Nat × Surface × Position)) (eid : Nat)
      (post : String → Option String),
      (∃ x ∈ triples, isSubmitted post x.1 x.2.1 x.2.2 = true ∧
        parsedDepth post x.1 x.2.1 x.2.2 = none) →
      (createMeasurements eid post triples).2 = true := by
  intro triples
  induction triples with
  | nil =>
    rintro eid post ⟨x, hx, _⟩
    simp at hx
  | cons y rest ih =>
    obtain ⟨t, s, p⟩ := y
    rintro eid post ⟨x, hx, hsub, hbad⟩
    cases hs : isSubmitted post t s p with
    | false =>
      rw [createMeasurements_cons_skip eid post t s p rest hs]
      rcases List.mem_cons.mp hx with rfl | hx'
      · rw [hsub] at hs
        cases hs
      · exact ih eid post ⟨x, hx', hsub, hbad⟩
    | true =>
      cases hv : parsedDepth post t s p with
      | none =>
        rw [createMeasurements_cons_err eid post t s p rest hs hv]
      | some v =>
        rw [createMeasurements_cons_row eid post t s p rest v hs hv]
        rcases List.mem_cons.mp hx with rfl | hx'
        · rw [hbad] at hv
          cases hv
        · exact ih eid post ⟨x, hx', hsub, hbad⟩

/-- C6 counterexample: submitting depth "3" at tooth 18 buccal mesial
and the malformed depth "abc" at tooth 18 buccal middle makes the
operation fail with the uncaught `ValueError` from `int("abc")` (not a
`ValidationError`), yet the committed state already contains the exam
row and the measurement row created before the failure — partial
state, refuting the all-or-nothing claim. -/
theorem C6_atomicity_counterexample :
    periodontal_exam_create db0 1 7 100 none "" postC6 =
      ({ exams := [{ id := 1, patient := 7, exam_date := 100, dentist := none, notes := "" }]
         measurements := [{ exam := 1, tooth_number := 18, position := .mesial,
                            surface := .buccal, pocket_depth := 3, bleeding := false,
                            calculus := false, mobility := none }] }, true) ∧
    (periodontal_exam_create db0 1 7 100 none "" postC6).1.exams ≠ [] ∧
    (periodontal_exam_create db0 1 7 100 none "" postC6).1.measurements ≠ [] := by
  refine ⟨by decide, by decide, by decide⟩

/-- C6 (amended): exam creation is not atomic.  The exam row is
committed before the measurement loop runs and every measurement row
is committed individually, so when a submitted depth fails to parse
the operation stops with the `ValueError` flag while the committed
state holds the exam row together with exactly the measurement rows
created before the failure. -/
theorem C6_exam_creation_not_atomic :
    ∀ (db : Db) (eid pid : Nat) (exam_date : Int) (dentist : Option Nat)
      (notes : String) (post : String → Option String),
      (∃ x ∈ canonicalTriples, isSubmitted post x.1 x.2.1 x.2.2 = true ∧
        parsedDepth post x.1 x.2.1 x.2.2 = none) →
      (periodontal_exam_create db eid pid exam_date dentist notes post).2 = true ∧
      ({ id := eid, patient := pid, exam_date := exam_date, dentist := dentist,
         notes := notes } : PeriodontalExam) ∈
        (periodontal_exam_create db eid pid exam_date dentist notes post).1.exams ∧
      (periodontal_exam_create db eid pid exam_date dentist notes post).1.measurements =
        db.measurements ++ (createMeasurements eid post canonicalTriples).1 := by
  intro db eid pid exam_date dentist notes post hbad
  refine ⟨?_, ?_, rfl⟩
  · exact createMeasurements_err_of_bad canonicalTriples eid post hbad
  · simp [periodontal_exam_create]

/-- C6 witness: the malformed submission satisfies the hypothesis of
the amended statement against the empty database. -/
theorem C6_exam_creation_not_atomic_witness :
    (periodontal_exam_create db0 1 7 100 none "" postC6).2 = true ∧
    ({ id := 1, patient := 7, exam_date := 100, dentist := none,
       notes := "" } : PeriodontalExam) ∈
      (periodontal_exam_create db0 1 7 100 none "" postC6).1.exams ∧
    (periodontal_exam_create db0 1 7 100 none "" postC6).1.measurements =
      db0.measurements ++ (createMeasurements 1 postC6 canonicalTriples).1 :=
  C6_exam_creation_not_atomic db0 1 7 100 none "" postC6 (by decide)

/-! ### C8: idempotence of the tooth status update -/

/-- C8: for a canonical status and fixed notes input, applying
`tooth_update` twice yields the same persisted row as applying it
once, and the second response equals the first. -/
theorem C8_tooth_update_idempotent :
    ∀ (t : Tooth) (s : String) (notesIn : Option String), s ∈ validStatuses →
      (tooth_update (tooth_update t (some s) notesIn).1 (some s) notesIn).1 =
        (tooth_update t (some s) notesIn).1 ∧
      (tooth_update (tooth_update t (some s) notesIn).1 (some s) notesIn).2 =
        (tooth_update t (some s) notesIn).2 := by
  intro t s notesIn hs
  unfold tooth_update
  by_cases hn : notesIn.getD "" ≠ "" <;> simp [hs, hn]

/-- C8 witness: updating `toothW` to "cavity" twice equals updating it
once. -/
theorem C8_tooth_update_idempotent_witness :
    (tooth_update (tooth_update toothW (some "cavity") none).1 (some "cavity") none).1 =
      (tooth_update toothW (some "cavity") none).1 ∧
    (tooth_update (tooth_update toothW (some "cavity") none).1 (some "cavity") none).2 =
      (tooth_update toothW (some "cavity") none).2 :=
  C8_tooth_update_idempotent toothW "cavity" none (by decide)

/-! ### Decimal digit and representation lemmas -/

/-- A decimal digit character satisfies `isDigit`. -/
theorem digitCh_isDigit (d : Nat) (h : d ≤ 9) : (digitCh d).isDigit = true := by
  unfold digitCh
  interval_cases d <;> decide

/-- Decimal digit characters compare equal exactly on equal digits. -/
theorem digitCh_eq_iff (a b : Nat) (ha : a ≤ 9) (hb : b ≤ 9) :
    digitCh a = digitCh b ↔ a = b := by
  unfold digitCh
  interval_cases a <;> interval_cases b <;> simp

/-- Decimal digit characters compare below exactly on smaller digits. -/
theorem digitCh_lt_iff (a b : Nat) (ha : a ≤ 9) (hb : b ≤ 9) :
    digitCh a < digitCh b ↔ a < b := by
  unfold digitCh
  interval_cases a <;> interval_cases b <;> simp

/-- A decimal digit character is not Python whitespace. -/
theorem digitCh_not_space (d : Nat) (h : d ≤ 9) : isPySpace (digitCh d) = false := by
  unfold digitCh isPySpace
  interval_cases d <;> decide

/-- A decimal digit character is not a sign character. -/
theorem digitCh_ne_sign (d : Nat) (h : d ≤ 9) :
    digitCh d ≠ '+' ∧ digitCh d ≠ '-' := by
  unfold digitCh
  interval_cases d <;> exact ⟨by decide, by decide⟩

/-- Reading the digit value back from a decimal digit character. -/
theorem charDigit_digitCh (d : Nat) (h : d ≤ 9) : charDigit (digitCh d) = d := by
  unfold digitCh charDigit
  interval_cases d <;> decide

/-- Unfolding of the digit expansion below ten. -/
theorem decReprAux_small (fuel m : Nat) (hf : 0 < fuel) (hm : m < 10) :
    decReprAux fuel m = [digitCh m] := by
  cases fuel with
  | zero => exact absurd hf (by simp)
  | succ n =>
    rw [decReprAux]
    simp [hm]

/-- Unfolding of the digit expansion at ten or above. -/
theorem decReprAux_step (fuel m : Nat) (hf : 0 < fuel) (hm : 10 ≤ m) :
    decReprAux fuel m = decReprAux (fuel - 1) (m / 10) ++ [digitCh (m % 10)] := by
  cases fuel with
  | zero => exact absurd hf (by simp)
  | succ n =>
    rw [decReprAux]
    simp [Nat.not_lt.mpr hm]

/-- The digit expansion of a counter below 10000, by magnitude. -/
theorem decRepr_cases (k : Nat) (h : k < 10000) :
    decRepr k =
      if k < 10 then [digitCh k]
      else if k < 100 then [digitCh (k / 10), digitCh (k % 10)]
      else if k < 1000 then
        [digitCh (k / 100), digitCh (k / 10 % 10), digitCh (k % 10)]
      else [digitCh (k / 1000), digitCh (k / 100 % 10), digitCh (k / 10 % 10),
        digitCh (k % 10)] := by
  unfold decRepr
  by_cases h1 : k < 10
  · rw [decReprAux_small _ _ (by omega) h1, if_pos h1]
  · by_cases h2 : k < 100
    · rw [decReprAux_step _ _ (by omega) (by omega)]
      simp only [Nat.add_sub_cancel]
      rw [decReprAux_small _ _ (by omega) (by omega), if_neg h1, if_pos h2]
      rfl
    · by_cases h3 : k < 1000
      · rw [decReprAux_step _ _ (by omega) (by omega)]
        simp only [Nat.add_sub_cancel]
        rw [decReprAux_step _ _ (by omega) (by omega)]
        have hdd : k / 10 / 10 = k / 100 := by omega
        rw [hdd, decReprAux_small _ _ (by omega) (by omega), if_neg h1, if_neg h2,
          if_pos h3]
        rfl
      · rw [decReprAux_step _ _ (by omega) (by omega)]
        simp only [Nat.add_sub_cancel]
        rw [decReprAux_step _ _ (by omega) (by omega)]
        have hdd : k / 10 / 10 = k / 100 := by omega
        rw [hdd, decReprAux_step _ _ (by omega) (by omega)]
        have hddd : k / 100 / 10 = k / 1000 := by omega
        rw [hddd, decReprAux_small _ _ (by omega) (by omega), if_neg h1, if_neg h2,
          if_neg h3]
        rfl

/-- The four digit zero padded form of a counter below 10000. -/
theorem pyFormat04N_eq (k : Nat) (h : k < 10000) :
    pyFormat04N k =
      [digitCh (k / 1000), digitCh (k / 100 % 10), digitCh (k / 10 % 10),
        digitCh (k % 10)] := by
  unfold pyFormat04N
  rw [decRepr_cases k h]
  by_cases h1 : k < 10
  · have e1 : k / 1000 = 0 := by omega
    have e2 : k / 100 % 10 = 0 := by omega
    have e3 : k / 10 % 10 = 0 := by omega
    have e4 : k % 10 = k := by omega
    rw [if_pos h1, e1, e2, e3, e4]
    rfl
  · by_cases h2 : k < 100
    · have e1 : k / 1000 = 0 := by omega
      have e2 : k / 100 % 10 = 0 := by omega
      have e3 : k / 10 % 10 = k / 10 := by omega
      rw [if_neg h1, if_pos h2, e1, e2, e3]
      rfl
    · by_cases h3 : k < 1000
      · have e1 : k / 1000 = 0 := by omega
        have e2 : k / 100 % 10 = k / 100 := by omega
        rw [if_neg h1, if_neg h2, if_pos h3, e1, e2]
        rfl
      · rw [if_neg h1, if_neg h2, if_neg h3]
        rfl

/-- The length of the padded form is four for counters below 10000. -/
theorem pyFormat04N_length (k : Nat) (h : k < 10000) :
    (pyFormat04N k).length = 4 := by
  rw [pyFormat04N_eq k h]
  rfl

/-- On a natural counter the integer formatter reduces to the natural
one. -/
theorem pyFormat04_ofNat (k : Nat) :
    pyFormat04 (Int.ofNat k) = ⟨pyFormat04N k⟩ := by
  unfold pyFormat04
  split
  · next h => exact absurd h (not_lt.mpr (Int.ofNat_nonneg k))
  · simp

/-! ### Lexicographic comparison of padded counters -/

/-- Data of a literally built string. -/
theorem strmk_data (l : List Char) : (String.mk l).data = l := rfl

/-- A common leading segment does not affect the comparison. -/
theorem lexLtL_append_left :
    ∀ (pre x y : List Char), lexLtL (pre ++ x) (pre ++ y) = lexLtL x y := by
  intro pre
  induction pre with
  | nil => intro x y; rfl
  | cons c pre ih =>
    intro x y
    rw [List.cons_append, List.cons_append]
    simp only [lexLtL, if_pos rfl]
    exact ih x y

/-- On padded counters below 10000 the byte order agrees with the
numeric order. -/
theorem lexLtL_pyFormat04N (a b : Nat) (ha : a < 10000) (hb : b < 10000) :
    lexLtL (pyFormat04N a) (pyFormat04N b) = decide (a < b) := by
  have ha3 : a / 1000 ≤ 9 := by omega
  have ha2 : a / 100 % 10 ≤ 9 := by omega
  have ha1 : a / 10 % 10 ≤ 9 := by omega
  have ha0 : a % 10 ≤ 9 := by omega
  have hb3 : b / 1000 ≤ 9 := by omega
  have hb2 : b / 100 % 10 ≤ 9 := by omega
  have hb1 : b / 10 % 10 ≤ 9 := by omega
  have hb0 : b % 10 ≤ 9 := by omega
  rw [pyFormat04N_eq a ha, pyFormat04N_eq b hb]
  simp only [lexLtL]
  by_cases e3 : a / 1000 = b / 1000
  · rw [if_pos ((digitCh_eq_iff _ _ ha3 hb3).mpr e3)]
    by_cases e2 : a / 100 % 10 = b / 100 % 10
    · rw [if_pos ((digitCh_eq_iff _ _ ha2 hb2).mpr e2)]
      by_cases e1 : a / 10 % 10 = b / 10 % 10
      · rw [if_pos ((digitCh_eq_iff _ _ ha1 hb1).mpr e1)]
        by_cases e0 : a % 10 = b % 10
        · rw [if_pos ((digitCh_eq_iff _ _ ha0 hb0).mpr e0)]
          have hab : a = b := by omega
          subst hab
          simp
        · rw [if_neg (fun hc => e0 ((digitCh_eq_iff _ _ ha0 hb0).mp hc))]
          rw [decide_eq_decide, digitCh_lt_iff _ _ ha0 hb0]
          omega
      · rw [if_neg (fun hc => e1 ((digitCh_eq_iff _ _ ha1 hb1).mp hc))]
        rw [decide_eq_decide, digitCh_lt_iff _ _ ha1 hb1]
        omega
    · rw [if_neg (fun hc => e2 ((digitCh_eq_iff _ _ ha2 hb2).mp hc))]
      rw [decide_eq_decide, digitCh_lt_iff _ _ ha2 hb2]
      omega
  · rw [if_neg (fun hc => e3 ((digitCh_eq_iff _ _ ha3 hb3).mp hc))]
    rw [decide_eq_decide, digitCh_lt_iff _ _ ha3 hb3]
    omega

/-- The `order_by` comparison of two identifiers with a common kind
plus year leading segment and padded counters is the numeric counter
comparison. -/
theorem strLtB_append_pad4 (kpref : String) (a b : Nat)
    (ha : a < 10000) (hb : b < 10000) :
    strLtB (kpref ++ pyFormat04 (Int.ofNat a)) (kpref ++ pyFormat04 (Int.ofNat b)) =
      decide (a < b) := by
  unfold strLtB
  rw [pyFormat04_ofNat, pyFormat04_ofNat, String.data_append, String.data_append,
    strmk_data, strmk_data, lexLtL_append_left]
  exact lexLtL_pyFormat04N a b ha hb

/-! ### Fold maximum lemmas -/

/-- The running maximum dominates its seed. -/
theorem le_foldl_max : ∀ (ks : List Nat) (a : Nat), a ≤ ks.foldl Nat.max a := by
  intro ks
  induction ks with
  | nil => intro a; exact le_refl a
  | cons k ks ih =>
    intro a
    rw [List.foldl_cons]
    exact le_trans (Nat.le_max_left a k) (ih (Nat.max a k))

/-- The running maximum dominates every member. -/
theorem foldl_max_mem_le :
    ∀ (ks : List Nat) (a k : Nat), k ∈ ks → k ≤ ks.foldl Nat.max a := by
  intro ks
  induction ks with
  | nil => intro a k hk; simp at hk
  | cons q ks ih =>
    intro a k hk
    rw [List.foldl_cons]
    rcases List.mem_cons.mp hk with rfl | hk
    · exact le_trans (Nat.le_max_right a k) (le_foldl_max ks (Nat.max a k))
    · exact ih (Nat.max a q) k hk

/-- The running maximum stays below a strict bound on the seed and the
members. -/
theorem foldl_max_lt :
    ∀ (ks : List Nat) (a c : Nat), a < c → (∀ k ∈ ks, k < c) →
      ks.foldl Nat.max a < c := by
  intro ks
  induction ks with
  | nil => intro a c ha _; exact ha
  | cons q ks ih =>
    intro a c ha h
    rw [List.foldl_cons]
    exact ih (Nat.max a q) c (Nat.max_lt.mpr ⟨ha, h q (List.mem_cons_self _ _)⟩)
      (fun k hk => h k (List.mem_cons_of_mem _ hk))

/-- The running maximum stays below a weak bound on the seed and the
members. -/
theorem foldl_max_le :
    ∀ (ks : List Nat) (a c : Nat), a ≤ c → (∀ k ∈ ks, k ≤ c) →
      ks.foldl Nat.max a ≤ c := by
  intro ks
  induction ks with
  | nil => intro a c ha _; exact ha
  | cons q ks ih =>
    intro a c ha h
    rw [List.foldl_cons]
    exact ih (Nat.max a q) c (Nat.max_le.mpr ⟨ha, h q (List.mem_cons_self _ _)⟩)
      (fun k hk => h k (List.mem_cons_of_mem _ hk))

/-! ### Selecting the greatest identifier -/

/-- Folding the greatest string selection over identifiers with padded
counters selects the identifier of the running numeric maximum. -/
theorem foldl_lastStep_pad4 :
    ∀ (ks : List Nat) (kpref : String) (a : Nat), a < 10000 →
      (∀ k ∈ ks, k < 10000) →
      (ks.map (fun k => kpref ++ pyFormat04 (Int.ofNat k))).foldl lastStep
        (some (kpref ++ pyFormat04 (Int.ofNat a))) =
      some (kpref ++ pyFormat04 (Int.ofNat (ks.foldl Nat.max a))) := by
  intro ks
  induction ks with
  | nil => intro kpref a _ _; rfl
  | cons k ks ih =>
    intro kpref a ha hks
    have hk : k < 10000 := hks k (List.mem_cons_self _ _)
    rw [List.map_cons, List.foldl_cons, List.foldl_cons]
    have hstep : lastStep (some (kpref ++ pyFormat04 (Int.ofNat a)))
        (kpref ++ pyFormat04 (Int.ofNat k)) =
        some (kpref ++ pyFormat04 (Int.ofNat (Nat.max a k))) := by
      simp only [lastStep]
      rw [strLtB_append_pad4 kpref a k ha hk]
      by_cases hak : a < k
      · have hmax : Nat.max a k = k := by
          simp [Nat.max, Nat.le_of_lt hak]
        rw [hmax, if_pos (by simpa using hak)]
      · have hmax : Nat.max a k = a := by
          simpa [Nat.max] using Nat.le_of_not_lt hak
        rw [hmax, if_neg (by simpa using hak)]
    rw [hstep]
    exact ih kpref (Nat.max a k) (Nat.max_lt.mpr ⟨ha, hk⟩)
      (fun r hr => hks r (List.mem_cons_of_mem _ hr))

/-- `order_by(id).last()` over the identifiers of a nonempty counter
list yields the identifier of the maximal counter. -/
theorem djangoLast_map_pad4 (ks : List Nat) (kpref : String)
    (hks : ∀ k ∈ ks, k < 10000) (hne : ks ≠ []) :
    djangoLast (ks.map (fun k => kpref ++ pyFormat04 (Int.ofNat k))) =
      some (kpref ++ pyFormat04 (Int.ofNat (ks.foldl Nat.max 0))) := by
  cases ks with
  | nil => exact absurd rfl hne
  | cons k ks =>
    unfold djangoLast
    rw [List.map_cons, List.foldl_cons]
    have h1 : lastStep none (kpref ++ pyFormat04 (Int.ofNat k)) =
        some (kpref ++ pyFormat04 (Int.ofNat k)) := rfl
    have h0 : Nat.max 0 k = k := by
      simp [Nat.max]
    rw [h1, foldl_lastStep_pad4 ks kpref k (hks k (List.mem_cons_self _ _))
      (fun r hr => hks r (List.mem_cons_of_mem _ hr)), List.foldl_cons, h0]

/-! ### Parsing the padded counter back -/

/-- Stripping leaves a padded counter unchanged (no whitespace at
either end). -/
theorem pyStrip_pyFormat04N (k : Nat) (h : k < 10000) :
    pyStrip ⟨pyFormat04N k⟩ = ⟨pyFormat04N k⟩ := by
  have h3 : k / 1000 ≤ 9 := by omega
  have h2 : k / 100 % 10 ≤ 9 := by omega
  have h1 : k / 10 % 10 ≤ 9 := by omega
  have h0 : k % 10 ≤ 9 := by omega
  unfold pyStrip
  rw [pyFormat04N_eq k h, strmk_data]
  simp [List.dropWhile, digitCh_not_space _ h3, digitCh_not_space _ h0]

/-- Parsing a four digit character run yields its value. -/
theorem pyIntL_digits4 (d3 d2 d1 d0 : Nat)
    (h3 : d3 ≤ 9) (h2 : d2 ≤ 9) (h1 : d1 ≤ 9) (h0 : d0 ≤ 9) :
    pyIntL [digitCh d3, digitCh d2, digitCh d1, digitCh d0] =
      some (Int.ofNat (d3 * 1000 + d2 * 100 + d1 * 10 + d0)) := by
  have hchain : parseDigits [digitCh d3, digitCh d2, digitCh d1, digitCh d0] =
      some (d3 * 1000 + d2 * 100 + d1 * 10 + d0) := by
    simp [parseDigits, parseDigitsAux, digitCh_isDigit _ h3, digitCh_isDigit _ h2,
      digitCh_isDigit _ h1, digitCh_isDigit _ h0, charDigit_digitCh _ h3,
      charDigit_digitCh _ h2, charDigit_digitCh _ h1, charDigit_digitCh _ h0]
    ring
  simp [pyIntL, (digitCh_ne_sign _ h3).1, (digitCh_ne_sign _ h3).2, hchain]

/-- Parsing a padded counter below 10000 recovers the counter. -/
theorem pyInt_pyFormat04N (k : Nat) (h : k < 10000) :
    pyInt ⟨pyFormat04N k⟩ = some (Int.ofNat k) := by
  unfold pyInt
  rw [pyStrip_pyFormat04N k h, strmk_data, pyFormat04N_eq k h,
    pyIntL_digits4 _ _ _ _ (by omega) (by omega) (by omega) (by omega)]
  have hsum : k / 1000 * 1000 + k / 100 % 10 * 100 + k / 10 % 10 * 10 + k % 10 = k := by
    omega
  rw [hsum]

/-- The last four characters of a prefixed padded counter are the
padded counter. -/
theorem pyLast4_append_pad4 (kpref : String) (k : Nat) (h : k < 10000) :
    pyLast4 (kpref ++ pyFormat04 (Int.ofNat k)) = ⟨pyFormat04N k⟩ := by
  unfold pyLast4
  rw [pyFormat04_ofNat, String.data_append, strmk_data]
  have hlen : (pyFormat04N k).length = 4 := pyFormat04N_length k h
  have harith : (kpref.data ++ pyFormat04N k).length - 4 = kpref.data.length := by
    rw [List.length_append, hlen]
    omega
  rw [harith, List.drop_left]

/-! ### The generator contract -/

/-- Unfolding of the generator when no identifier matches. -/
theorem generateSeqId_none_case (kpref : String) (existing : List String)
    (h : djangoLast (existing.filter (fun s => pyStartswith s kpref)) = none) :
    generateSeqId kpref existing = some (kpref ++ pyFormat04 1) := by
  unfold generateSeqId
  rw [h]

/-- Unfolding of the generator on the greatest matching identifier. -/
theorem generateSeqId_some_case (kpref : String) (existing : List String)
    (lastId : String)
    (h : djangoLast (existing.filter (fun s => pyStartswith s kpref)) = some lastId) :
    generateSeqId kpref existing =
      match pyInt (pyLast4 lastId) with
      | none => none
      | some v => some (kpref ++ pyFormat04 (v + 1)) := by
  unfold generateSeqId
  rw [h]

/-- The generator contract: when the identifiers carrying the kind
plus year leading segment are exactly those of a list of counters
below 10000, the generated identifier is the leading segment followed
by the padded successor of the greatest counter (1 on an empty
list). -/
theorem generateSeqId_spec (kpref : String) (existing : List String) (ks : List Nat)
    (hfilter : existing.filter (fun s => pyStartswith s kpref) =
      ks.map (fun k => kpref ++ pyFormat04 (Int.ofNat k)))
    (hbound : ∀ k ∈ ks, k < 10000) :
    generateSeqId kpref existing =
      some (kpref ++ pyFormat04 (Int.ofNat (ks.foldl Nat.max 0 + 1))) := by
  cases ks with
  | nil =>
    have hnone : djangoLast (existing.filter (fun s => pyStartswith s kpref)) = none := by
      rw [hfilter]
      rfl
    rw [generateSeqId_none_case kpref existing hnone]
    rfl
  | cons k ks =>
    have hM : (k :: ks).foldl Nat.max 0 < 10000 :=
      foldl_max_lt _ 0 10000 (by omega) hbound
    have hlast : djangoLast (existing.filter (fun s => pyStartswith s kpref)) =
        some (kpref ++ pyFormat04 (Int.ofNat ((k :: ks).foldl Nat.max 0))) := by
      rw [hfilter]
      exact djangoLast_map_pad4 (k :: ks) kpref hbound (by simp)
    rw [generateSeqId_some_case kpref existing _ hlast,
      pyLast4_append_pad4 kpref _ hM, pyInt_pyFormat04N _ hM]
    rfl

/-! ### C3: sequential identifier generation -/

/-- C3: when the stored identifiers with the `P<year>` (respectively
`INV<year>`) leading segment are exactly those carrying four digit
counters, saving a patient (respectively invoice) with an unset
identifier assigns the leading segment followed by the zero padded
successor of the greatest such counter (1 when none exists); saving
with an identifier already set leaves it unchanged. -/
theorem C3_sequential_identifier :
    ∀ (year : Nat) (existingP existingI : List String) (ksP ksI : List Nat),
      (existingP.filter (fun s => pyStartswith s ("P" ++ pyStr year)) =
        ksP.map (fun k => ("P" ++ pyStr year) ++ pyFormat04 (Int.ofNat k))) →
      (∀ k ∈ ksP, k < 10000) →
      (existingI.filter (fun s => pyStartswith s ("INV" ++ pyStr year)) =
        ksI.map (fun k => ("INV" ++ pyStr year) ++ pyFormat04 (Int.ofNat k))) →
      (∀ k ∈ ksI, k < 10000) →
      patient_save "" year existingP =
        some (("P" ++ pyStr year) ++ pyFormat04 (Int.ofNat (ksP.foldl Nat.max 0 + 1))) ∧
      invoice_save "" year existingI =
        some (("INV" ++ pyStr year) ++
          pyFormat04 (Int.ofNat (ksI.foldl Nat.max 0 + 1))) ∧
      (∀ pid, pid ≠ "" → patient_save pid year existingP = some pid) ∧
      (∀ inv, inv ≠ "" → invoice_save inv year existingI = some inv) := by
  intro year existingP existingI ksP ksI hfP hbP hfI hbI
  refine ⟨?_, ?_, ?_, ?_⟩
  · unfold patient_save
    rw [if_pos rfl]
    exact generateSeqId_spec _ existingP ksP hfP hbP
  · unfold invoice_save
    rw [if_pos rfl]
    exact generateSeqId_spec _ existingI ksI hfI hbI
  · intro pid hpid
    unfold patient_save
    rw [if_neg hpid]
  · intro inv hinv
    unfold invoice_save
    rw [if_neg hinv]

/-- C3 witness: in year 2025 with stored patient identifiers
"P20250003" and "P20250007" (and an unrelated string) the next
identifier is "P20250008"; with stored invoice identifier
"INV20250001" the next is "INV20250002"; set identifiers are kept. -/
theorem C3_sequential_identifier_witness :
    ((["X1", "P20250003", "P20250007"].filter
        (fun s => pyStartswith s ("P" ++ pyStr 2025)) =
      [3, 7].map (fun k => ("P" ++ pyStr 2025) ++ pyFormat04 (Int.ofNat k))) ∧
     (∀ k ∈ [3, 7], k < 10000) ∧
     (["INV20250001"].filter (fun s => pyStartswith s ("INV" ++ pyStr 2025)) =
      [1].map (fun k => ("INV" ++ pyStr 2025) ++ pyFormat04 (Int.ofNat k))) ∧
     (∀ k ∈ [1], k < 10000)) ∧
    (patient_save "" 2025 ["X1", "P20250003", "P20250007"] =
      some (("P" ++ pyStr 2025) ++
        pyFormat04 (Int.ofNat (([3, 7] : List Nat).foldl Nat.max 0 + 1))) ∧
     invoice_save "" 2025 ["INV20250001"] =
      some (("INV" ++ pyStr 2025) ++
        pyFormat04 (Int.ofNat (([1] : List Nat).foldl Nat.max 0 + 1))) ∧
     (∀ pid, pid ≠ "" → patient_save pid 2025 ["X1", "P20250003", "P20250007"] = some pid) ∧
     (∀ inv, inv ≠ "" → invoice_save inv 2025 ["INV20250001"] = some inv)) :=
  ⟨⟨by decide, by decide, by decide, by decide⟩,
    C3_sequential_identifier 2025 ["X1", "P20250003", "P20250007"] ["INV20250001"]
      [3, 7] [1] (by decide) (by decide) (by decide) (by decide)⟩

/-! ### C9: counter overflow produces a five digit suffix -/

/-- C9: when the stored identifiers for the year carry four digit
counters with greatest counter 9999, the generator neither fails nor
saturates: the next save assigns the leading segment followed by the
five digit suffix "10000" (the padding is only a minimum width). -/
theorem C9_counter_overflow :
    ∀ (year : Nat) (existing : List String) (ks : List Nat),
      (existing.filter (fun s => pyStartswith s ("P" ++ pyStr year)) =
        ks.map (fun k => ("P" ++ pyStr year) ++ pyFormat04 (Int.ofNat k))) →
      (∀ k ∈ ks, k ≤ 9999) → 9999 ∈ ks →
      patient_save "" year existing = some (("P" ++ pyStr year) ++ "10000") := by
  intro year existing ks hf hb hmem
  have hmax : ks.foldl Nat.max 0 = 9999 :=
    le_antisymm (foldl_max_le ks 0 9999 (by omega) hb) (foldl_max_mem_le ks 0 9999 hmem)
  have hgen := generateSeqId_spec ("P" ++ pyStr year) existing ks hf
    (fun k hk => lt_of_le_of_lt (hb k hk) (by omega))
  unfold patient_save
  rw [if_pos rfl, hgen, hmax]
  have hfmt : pyFormat04 (Int.ofNat (9999 + 1)) = "10000" := by decide
  rw [hfmt]

/-- C9 witness: with the single stored identifier "P20259999" the next
patient save assigns "P202510000". -/
theorem C9_counter_overflow_witness :
    ((["P20259999"].filter (fun s => pyStartswith s ("P" ++ pyStr 2025)) =
      [9999].map (fun k => ("P" ++ pyStr 2025) ++ pyFormat04 (Int.ofNat k))) ∧
     (∀ k ∈ [9999], k ≤ 9999) ∧ 9999 ∈ [9999]) ∧
    patient_save "" 2025 ["P20259999"] = some (("P" ++ pyStr 2025) ++ "10000") :=
  ⟨⟨by decide, by decide, by decide⟩,
    C9_counter_overflow 2025 ["P20259999"] [9999] (by decide) (by decide) (by decide)⟩

end Dental
